import Mathlib

/-!
# edge_gateway: ingestion, buffering and batched persistence

A shallow embedding of the pipeline of `pkg/udp`, `pkg/timescaledb` and the two
`cmd` programs:

* Go buffered channels with their non-blocking send (`select` with `default`),
  receive and `close`, including the run-time panics of the language;
* `udp.Listener` (`listen`, `Close`) and `dataConverter`;
* `timescaledb.Client.batchInsert` over a transactional sink whose step outcomes
  are parameters;
* `timescaledb.Client.batchWriter` as a step function over the events its
  `select` can observe, and a timed layer that schedules the `time.Ticker`.
-/

namespace EdgeGateway

/-! ## Data model -/

/-- DataEntry of `pkg/timescaledb`: one record handed to the batch writer. -/
structure DataEntry where
  SourceAddr : String
  Data : List Nat
  deriving DecidableEq, Repr

/-- One row of the table created by `InitTable` (the columns `batchInsert` writes). -/
structure Row where
  time : Nat
  source_addr : String
  data_size : Nat
  raw_data : List Nat
  deriving DecidableEq, Repr

/-! ## The persistence sink and `batchInsert` -/

/-- What `tx.Commit()` does. `committed`: the sink commits and `nil` is
returned. `failed`: the commit was attempted on the sink and returned an error;
`database/sql` has marked the transaction done before the attempt, so the
deferred `tx.Rollback()` finds it done and issues nothing. `contextDone`: the
context of the call had expired, `Commit` returns the context error without
attempting the commit, and the transaction is rolled back. -/
inductive CommitOutcome where
  | committed
  | failed
  | contextDone
  deriving DecidableEq, Repr

/-- The outcomes of the sink operations used by one call of `batchInsert`:
whether `BeginTx`, `PrepareContext` and the i-th `ExecContext` succeed, what
`Commit` does, and the value `time.Now()` returns. -/
structure SinkOutcome where
  beginOk : Bool
  prepareOk : Bool
  execOk : Nat → Bool
  commit : CommitOutcome
  now : Nat

/-- The database as `batchInsert` sees it: the committed rows of the table, and
counters of the transactions opened and of the rollbacks issued to the sink. -/
structure DB where
  rows : List Row
  begun : Nat
  rolledBack : Nat
  deriving DecidableEq, Repr

/-- The errors `batchInsert` returns, one per `fmt.Errorf` of the function. -/
inductive InsertError where
  | beginFailed
  | prepareFailed
  | execFailed (index : Nat)
  | commitFailed
  deriving DecidableEq, Repr

/-- The row `stmt.ExecContext(ctx, timestamp, entry.SourceAddr, len(entry.Data), entry.Data)`
writes. -/
def rowOf (timestamp : Nat) (entry : DataEntry) : Row :=
  { time := timestamp
    source_addr := entry.SourceAddr
    data_size := entry.Data.length
    raw_data := entry.Data }

/-- The `for _, entry := range entries` loop of `batchInsert`: each successful
`ExecContext` adds a row to the pending rows of the open transaction; the first
failing one ends the loop with the index of the entry. -/
def execAll (o : SinkOutcome) (timestamp : Nat) :
    Nat → List DataEntry → List Row → Except Nat (List Row)
  | _, [], pending => .ok pending
  | i, entry :: rest, pending =>
    if o.execOk i then execAll o timestamp (i + 1) rest (pending ++ [rowOf timestamp entry])
    else .error i

/-- The deferred `tx.Rollback()` on a transaction that is still open: a rollback
is issued to the sink, the pending rows are dropped, the table is unchanged. The
sink is transactional: rows reach the table only through a `Commit` that
succeeds. -/
def rollback (db : DB) : DB :=
  { db with rolledBack := db.rolledBack + 1 }

/-- Client.batchInsert: returns the error (`none` is Go's `nil`) and the database
afterwards. The deferred `tx.Rollback()` rolls the transaction back on every
return while the transaction is open; after a `Commit` that was attempted, failed
or not, the transaction is done and the deferred call issues nothing. -/
def batchInsert (o : SinkOutcome) (db : DB) (entries : List DataEntry) :
    Option InsertError × DB :=
  if entries.length = 0 then (none, db)
  else if ¬ o.beginOk then (some .beginFailed, db)
  else
    let db1 : DB := { db with begun := db.begun + 1 }
    if ¬ o.prepareOk then (some .prepareFailed, rollback db1)
    else
      let timestamp := o.now
      match execAll o timestamp 0 entries [] with
      | .error i => (some (.execFailed i), rollback db1)
      | .ok pending =>
        match o.commit with
        | .committed => (none, { db1 with rows := db1.rows ++ pending })
        | .failed => (some .commitFailed, db1)
        | .contextDone => (some .commitFailed, rollback db1)

/-! ## The batch writer -/

/-- The lines `batchWriter` writes with the `log` package. -/
inductive LogLine where
  | insertFailed (err : InsertError)
  | inserted (n : Nat)
  | stopped
  deriving DecidableEq, Repr

/-- The events the `select` of `batchWriter` can observe: a record received from
`dataChan`, `dataChan` closed and drained (`ok == false`), a tick of the ticker. -/
inductive Event where
  | recv (entry : DataEntry)
  | closed
  | tick
  deriving DecidableEq, Repr

/-- The state of a running `batchWriter`: its parameter `batchSize`, the local
`batch`, the database behind `c.db`, the arguments of the calls of `batchInsert`
made so far (in call order), the log, and whether the function has returned. -/
structure Writer where
  batchSize : Int
  batch : List DataEntry
  db : DB
  calls : List (List DataEntry)
  log : List LogLine
  stopped : Bool

/-- The sink seen by the writer: the outcomes of the n-th call of `batchInsert`. -/
abbrev Sink := Nat → SinkOutcome

/-- The start of `batchWriter`: `make([]DataEntry, 0, batchSize)` panics
(`none`) on a negative capacity and on a capacity above `maxCap`, the largest
capacity for which the runtime makes the slice (at most the allocator limit
divided by the size of a `DataEntry`); otherwise the batch is empty. -/
def newWriter (maxCap : Nat) (batchSize : Int) (db : DB) : Option Writer :=
  if batchSize < 0 ∨ (maxCap : Int) < batchSize then none
  else some { batchSize := batchSize, batch := [], db := db, calls := [], log := [],
              stopped := false }

/-- The line `flush` logs for what `batchInsert` returned on a batch of `n`
records. -/
def flushLine (err : Option InsertError) (n : Nat) : LogLine :=
  match err with
  | some e => .insertFailed e
  | none => .inserted n

/-- The `flush` closure of `batchWriter`. -/
def flush (sink : Sink) (w : Writer) : Writer :=
  if w.batch.length = 0 then w
  else
    let r := batchInsert (sink w.calls.length) w.db w.batch
    { w with db := r.2, calls := w.calls ++ [w.batch],
             log := w.log ++ [flushLine r.1 w.batch.length], batch := [] }

/-- One iteration of the `for { select { ... } }` loop of `batchWriter` on the
event the `select` observed. After the function has returned nothing happens. -/
def step (sink : Sink) (w : Writer) (ev : Event) : Writer :=
  if w.stopped then w
  else
    match ev with
    | .closed =>
      let w1 := flush sink w
      { w1 with log := w1.log ++ [.stopped], stopped := true }
    | .recv entry =>
      let w1 : Writer := { w with batch := w.batch ++ [entry] }
      if w1.batchSize ≤ (w1.batch.length : Int) then flush sink w1 else w1
    | .tick => flush sink w

/-- The loop of `batchWriter` over a finite sequence of observed events. -/
def run (sink : Sink) (w : Writer) (evs : List Event) : Writer :=
  evs.foldl (step sink) w

/-- The records among a sequence of events, in arrival order. -/
def received : List Event → List DataEntry
  | [] => []
  | .recv entry :: rest => entry :: received rest
  | _ :: rest => received rest

/-! ## The ticker of the batch writer

Time is a natural number of clock units (`time.Duration` counts nanoseconds).
`time.NewTicker(d)` delivers a tick every `d` units counted from its creation;
`batchWriter` creates it once and only ever receives from `ticker.C`. Handling an
event takes no time in this layer. -/

/-- A running `batchWriter` together with its ticker: the period
(`flushInterval`), the time of the next tick, and the times at which
`batchInsert` was called (one entry per call, in call order). -/
structure Timed where
  w : Writer
  period : Nat
  next : Nat
  flushTimes : List Nat

/-- The start of `batchWriter` at time `t0`: the batch is made, then
`time.NewTicker(flushInterval)` panics on a non-positive interval (`none`); the
first tick is due one interval after the start. -/
def startWriter (maxCap : Nat) (batchSize : Int) (flushInterval : Int) (db : DB) (t0 : Nat) :
    Option Timed :=
  match newWriter maxCap batchSize db with
  | none => none
  | some w =>
    if flushInterval ≤ 0 then none
    else some { w := w, period := flushInterval.toNat, next := t0 + flushInterval.toNat,
                flushTimes := [] }

/-- The writer handles event `ev` at time `t`: the loop iteration of `step`; the
ticker is not touched by any arm of the `select`. The time is recorded when the
iteration called `batchInsert`. -/
def handleAt (sink : Sink) (s : Timed) (t : Nat) (ev : Event) : Timed :=
  let w1 := step sink s.w ev
  { s with w := w1
           flushTimes := if w1.calls.length = s.w.calls.length then s.flushTimes
                         else s.flushTimes ++ [t] }

/-- The tick that is due at `s.next` is received from `ticker.C`; the ticker
schedules the following one a period later. -/
def tickOnce (sink : Sink) (s : Timed) : Timed :=
  { handleAt sink s s.next .tick with next := s.next + s.period }

/-- Receive `n` ticks, one after the other. -/
def tickN (sink : Sink) : Nat → Timed → Timed
  | 0, s => s
  | n + 1, s => tickN sink n (tickOnce sink s)

/-- The number of ticks due at or before time `upto` (the period of a started
writer is positive). -/
def ticksDue (s : Timed) (upto : Nat) : Nat :=
  if s.next ≤ upto then (upto - s.next) / s.period + 1 else 0

/-- Let time pass until `upto` with no channel activity: every tick due at or
before `upto` is received. -/
def waitUntil (sink : Sink) (s : Timed) (upto : Nat) : Timed :=
  tickN sink (ticksDue s upto) s

/-- A channel event (a record or the close) observed at time `t`, after the ticks
due at or before `t`. When a tick is due at `t` itself the `select` of the code
may take either first; the tick is taken first here, and the claims about the
ticker are stated for events off the tick instants. -/
def feedAt (sink : Sink) (s : Timed) (t : Nat) (ev : Event) : Timed :=
  handleAt sink (waitUntil sink s t) t ev

/-- A timed sequence of channel events, in the order given. -/
def feedAll (sink : Sink) (s : Timed) : List (Nat × Event) → Timed
  | [] => s
  | (t, ev) :: rest => feedAll sink (feedAt sink s t ev) rest

/-! ## Channels -/

/-- A Go channel `make(chan α, cap)`: capacity (0 for an unbuffered channel),
buffered items (head is the oldest), whether `close` was called on it, and the
number of receivers that are parked in a receive on it. -/
structure Chan (α : Type) where
  cap : Nat
  buf : List α
  closed : Bool
  waiting : Nat
  deriving DecidableEq, Repr

/-- The channel `make(chan α, cap)`. -/
def Chan.make (α : Type) (cap : Nat) : Chan α :=
  { cap := cap, buf := [], closed := false, waiting := 0 }

/-- What `select { case ch <- x: ... default: ... }` does: the item was handed
to a parked receiver, or buffered, or the `default` arm ran, or the send
panicked. -/
inductive TrySend (α : Type) where
  | handed (ch : Chan α)
  | sent (ch : Chan α)
  | dropped (ch : Chan α)
  | panicked (ch : Chan α)
  deriving DecidableEq, Repr

/-- The non-blocking send `select { case ch <- x: default: }`: a send on a closed
channel panics (the send case of a closed channel is ready, and proceeding with it
panics); otherwise the item is handed to a parked receiver when there is one,
whatever the capacity; otherwise it is buffered when there is room, and the
`default` arm runs when there is none. -/
def Chan.trySend {α : Type} (ch : Chan α) (x : α) : TrySend α :=
  if ch.closed then .panicked ch
  else if 0 < ch.waiting then .handed { ch with waiting := ch.waiting - 1 }
  else if ch.buf.length < ch.cap then .sent { ch with buf := ch.buf ++ [x] }
  else .dropped ch

/-- What a receive `x, ok := <-ch` does. -/
inductive Recv (α : Type) where
  | item (x : α) (ch : Chan α)
  | closedAndDrained
  | parked (ch : Chan α)
  deriving DecidableEq, Repr

/-- The receive from a channel: the oldest buffered item; on an empty channel
`ok == false` when it is closed, and the receiver parks on the channel when it is
open. -/
def Chan.recv {α : Type} (ch : Chan α) : Recv α :=
  match ch.buf with
  | x :: rest => .item x { ch with buf := rest }
  | [] => if ch.closed then .closedAndDrained else .parked { ch with waiting := ch.waiting + 1 }

/-- The builtin `close(ch)`: `none` is the panic on a channel that is already
closed; the parked receivers are released (they see `ok == false`). -/
def Chan.close {α : Type} (ch : Chan α) : Option (Chan α) :=
  if ch.closed then none else some { ch with closed := true, waiting := 0 }

/-! ## The UDP listener -/

/-- The constant `bufferSize` of `pkg/udp`. -/
def bufferSize : Nat := 1024

/-- The lines the listener writes with the `log` package. -/
inductive UdpLog where
  | started
  | readFailed
  | channelFull
  | closing
  deriving DecidableEq, Repr

/-- Listener of `pkg/udp`. `conn` is `none` for Go's `nil` and otherwise tells
whether the socket is still open; `done` tells whether the channel `done` has
been closed. `released` counts how often the socket was released. The data
channel is shared with the consumer and is passed to the functions that use it. -/
structure Listener where
  addr : String
  connOpen : Option Bool
  done : Bool
  released : Nat
  log : List UdpLog
  deriving DecidableEq, Repr

/-- NewListener. -/
def NewListener (addr : String) : Listener :=
  { addr := addr, connOpen := none, done := false, released := 0, log := [] }

/-- Listener.Start, given whether resolving and binding the address succeeded:
returns whether an error was returned and the listener afterwards. -/
def Listener.Start (l : Listener) (bound : Bool) : Bool × Listener :=
  if ¬ bound then (true, l)
  else (false, { l with connOpen := some true, log := l.log ++ [.started] })

/-- What a call of `Listener.Close` does: it panics, or returns (with or without
an error); in both cases the listener afterwards is given. -/
inductive CloseResult where
  | panicked (l : Listener)
  | returned (err : Bool) (l : Listener)
  deriving DecidableEq, Repr

/-- Listener.Close: logs, closes the channel `done` (the builtin `close` panics
on a closed channel), then closes the connection when there is one
(`net.UDPConn.Close` on a closed connection returns an error and releases
nothing). -/
def Listener.Close (l : Listener) : CloseResult :=
  let l1 : Listener := { l with log := l.log ++ [.closing] }
  if l1.done then .panicked l1
  else
    let l2 : Listener := { l1 with done := true }
    match l2.connOpen with
    | none => .returned false l2
    | some true => .returned false { l2 with connOpen := some false, released := l2.released + 1 }
    | some false => .returned true l2

/-- What `ReadFromUDP` returned in one iteration of `listen`: a datagram, or an
error together with whether `done` is closed when the error is examined. -/
inductive ReadResult where
  | datagram (payload : List Nat)
  | failed (doneClosed : Bool)
  deriving DecidableEq, Repr

/-- What one iteration of a loop does: it goes on with the next iteration, the
function returns, the goroutine parks in a receive, or it panics. -/
inductive Iter (σ : Type) where
  | continues (s : σ)
  | returns (s : σ)
  | waits (s : σ)
  | panics (s : σ)
  deriving DecidableEq, Repr

/-- One iteration of the `for` loop of `Listener.listen` on the shared data
channel. A datagram is cut to the receive buffer (`bufferSize` bytes), copied and
offered to the channel with the non-blocking send. -/
def listenIter (l : Listener) (dataChan : Chan (List Nat)) (rd : ReadResult) :
    Iter (Listener × Chan (List Nat)) :=
  if l.done then .returns (l, dataChan)
  else
    match rd with
    | .failed doneClosed =>
      if doneClosed then .returns ({ l with done := true }, dataChan)
      else .continues ({ l with log := l.log ++ [.readFailed] }, dataChan)
    | .datagram payload =>
      let data := payload.take bufferSize
      if 0 < data.length then
        match dataChan.trySend data with
        | .handed ch => .continues (l, ch)
        | .sent ch => .continues (l, ch)
        | .dropped ch => .continues ({ l with log := l.log ++ [.channelFull] }, ch)
        | .panicked ch => .panics (l, ch)
      else .continues (l, dataChan)

/-! ## The converter of `cmd/gateway_timescale` -/

/-- The constant `udpAddr` of `cmd/gateway_timescale`. -/
def udpAddr : String := "127.0.0.2:8888"

/-- The state the converter works on: the raw channel it ranges over, the record
channel it sends to, and the number of records it dropped (one log line each). -/
structure Converter where
  rawDataChan : Chan (List Nat)
  dbDataChan : Chan DataEntry
  droppedCount : Nat
  deriving DecidableEq, Repr

/-- One iteration of `for data := range rawDataChan` in `dataConverter`. -/
def converterIter (c : Converter) : Iter Converter :=
  match c.rawDataChan.recv with
  | .parked raw => .waits { c with rawDataChan := raw }
  | .closedAndDrained => .returns c
  | .item data raw =>
    let entry : DataEntry := { SourceAddr := udpAddr, Data := data }
    match c.dbDataChan.trySend entry with
    | .handed ch => .continues { c with rawDataChan := raw, dbDataChan := ch }
    | .sent ch => .continues { c with rawDataChan := raw, dbDataChan := ch }
    | .dropped ch =>
      .continues { c with rawDataChan := raw, dbDataChan := ch, droppedCount := c.droppedCount + 1 }
    | .panicked ch => .panics { c with rawDataChan := raw, dbDataChan := ch }

/-! ## A queue between one producer and one consumer -/

/-- What happens to a queue: the producer offers an item with the non-blocking
send, the consumer starts a receive (and parks when the queue is empty), the owner
closes the queue. -/
inductive QOp (α : Type) where
  | offer (x : α)
  | take
  | close
  deriving DecidableEq, Repr

/-- A queue with its history: the items offered so far, the items the consumer
received, and whether a goroutine has panicked on it. -/
structure QState (α : Type) where
  ch : Chan α
  offered : List α
  taken : List α
  crashed : Bool
  deriving DecidableEq, Repr

/-- One operation on the queue. After a panic the program is gone and nothing
more happens. An item handed to the parked consumer is received at once. A
consumer that is parked starts no second receive. -/
def qStep {α : Type} (q : QState α) (op : QOp α) : QState α :=
  if q.crashed then q
  else
    match op with
    | .offer x =>
      match q.ch.trySend x with
      | .handed ch => { q with ch := ch, offered := q.offered ++ [x], taken := q.taken ++ [x] }
      | .sent ch => { q with ch := ch, offered := q.offered ++ [x] }
      | .dropped ch => { q with ch := ch, offered := q.offered ++ [x] }
      | .panicked ch => { q with ch := ch, offered := q.offered ++ [x], crashed := true }
    | .take =>
      if 0 < q.ch.waiting then q
      else
        match q.ch.recv with
        | .item x ch => { q with ch := ch, taken := q.taken ++ [x] }
        | .closedAndDrained => q
        | .parked ch => { q with ch := ch }
    | .close =>
      match q.ch.close with
      | some ch => { q with ch := ch }
      | none => { q with crashed := true }

/-- A sequence of operations on a queue. -/
def qRun {α : Type} (q : QState α) (ops : List (QOp α)) : QState α :=
  ops.foldl qStep q

/-- A fresh queue of capacity `cap`. -/
def qNew (α : Type) (cap : Nat) : QState α :=
  { ch := Chan.make α cap, offered := [], taken := [], crashed := false }

/-- The events the writer handles: those before the first close of the channel. -/
def beforeClose (evs : List Event) : List Event :=
  evs.takeWhile (fun ev => decide (ev ≠ Event.closed))

/-- Two writers that agree on everything but the database and the log. -/
def Similar (a b : Writer) : Prop :=
  a.batchSize = b.batchSize ∧ a.batch = b.batch ∧ a.calls = b.calls ∧ a.stopped = b.stopped

/-! ## Sample data -/

/-- Sample record A. -/
def recA : DataEntry := { SourceAddr := udpAddr, Data := [1] }

/-- Sample record B. -/
def recB : DataEntry := { SourceAddr := udpAddr, Data := [2, 2] }

/-- Sample record C. -/
def recC : DataEntry := { SourceAddr := udpAddr, Data := [3, 3, 3] }

/-- Sample record D. -/
def recD : DataEntry := { SourceAddr := udpAddr, Data := [4] }

/-- An empty table. -/
def emptyDB : DB := { rows := [], begun := 0, rolledBack := 0 }

/-- A sink on which every operation succeeds. -/
def okSink : Sink := fun n =>
  { beginOk := true, prepareOk := true, execOk := fun _ => true, commit := .committed,
    now := 1000 + n }

/-- A sink whose first transaction fails at the second insert and whose later
transactions succeed. -/
def failFirstSink : Sink := fun n =>
  { beginOk := true, prepareOk := true, execOk := fun i => decide (n ≠ 0 ∨ i ≠ 1),
    commit := .committed, now := 1000 + n }

/-- A running writer with an empty batch. -/
def freshWriter (batchSize : Int) : Writer :=
  { batchSize := batchSize, batch := [], db := emptyDB, calls := [], log := [], stopped := false }

/-- The database after `batchInsert` was called with each of `calls`, one call
after the other, the first of them being call number `n` on the sink. -/
def applyCalls (sink : Sink) : Nat → DB → List (List DataEntry) → DB
  | _, db, [] => db
  | n, db, c :: rest => applyCalls sink (n + 1) (batchInsert (sink n) db c).2 rest

/-- The record a row of the table stores. -/
def rowEntry (r : Row) : DataEntry :=
  { SourceAddr := r.source_addr, Data := r.raw_data }

/-- A sink on which every operation of every call succeeds. -/
def Healthy (sink : Sink) : Prop :=
  ∀ n, (sink n).beginOk = true ∧ (sink n).prepareOk = true ∧
    (∀ i, (sink n).execOk i = true) ∧ (sink n).commit = .committed

/-- A value for `maxCap`: the limit of `make` for a slice of `DataEntry` on
linux/amd64, 2^48 bytes of heap address space at 40 bytes per entry. -/
def maxSliceCap : Nat := 2 ^ 48 / 40

/-- A sink whose `Commit` is attempted and fails, every other step succeeding. -/
def commitFailSink : Sink := fun n =>
  { beginOk := true, prepareOk := true, execOk := fun _ => true, commit := .failed,
    now := 1000 + n }

/-- An unbuffered channel `make(chan []byte)` on which one receiver is parked. -/
def unbufferedWithReceiver : Chan (List Nat) :=
  { cap := 0, buf := [], closed := false, waiting := 1 }

/-- A closed channel of capacity 2 that holds one item. -/
def closedWithRoom : Chan (List Nat) :=
  { cap := 2, buf := [[1]], closed := true, waiting := 0 }

/-- The constant `batchSize` of `cmd/gateway_timescale`. -/
def batchSize : Int := 100

/-- The constant `flushInterval` of `cmd/gateway_timescale`: `5 * time.Second`, in
nanoseconds. -/
def flushInterval : Int := 5 * 1000000000

/-- One second, in nanoseconds. -/
def second : Nat := 1000000000

/-- A writer with `batchSize = 2` and a ticker of period 5s that holds `[A]` and
whose next tick is due at 5s. -/
def holdingA : Timed :=
  { w := { freshWriter 2 with batch := [recA] }
    period := 5 * second
    next := 5 * second
    flushTimes := [] }

/-- The listener of the two programs after a successful `Start`. -/
def startedListener : Listener := ((NewListener udpAddr).Start true).2

/-- The data channel `make(chan []byte, 100)` of `cmd/gateway` after
`close(dataChan)`. -/
def closedDataChan : Chan (List Nat) := { Chan.make (List Nat) 100 with closed := true }

/-- The converter of `cmd/gateway_timescale` after `close(rawDataChan)` and
`close(dbDataChan)`, with one frame still buffered in the raw channel. -/
def convAfterShutdown : Converter :=
  { rawDataChan := { cap := 100, buf := [[7, 7]], closed := true, waiting := 0 }
    dbDataChan := { cap := 200, buf := [], closed := true, waiting := 0 }
    droppedCount := 0 }

/-- A full queue of capacity 2. -/
def fullChan : Chan (List Nat) :=
  { cap := 2, buf := [[1], [2]], closed := false, waiting := 0 }

/-- The queue invariant: what the consumer received, followed by what is still
buffered, is a subsequence of what was offered; the capacity is the one the queue
was made with and the buffer is within it; a receiver is parked only on an empty
queue. -/
def QInv {α : Type} (cap : Nat) (q : QState α) : Prop :=
  (q.taken ++ q.ch.buf).Sublist q.offered ∧ q.ch.cap = cap ∧ q.ch.buf.length ≤ cap ∧
    (0 < q.ch.waiting → q.ch.buf = [])

/-! ## The batch writer: lemmas -/

theorem flush_batch (sink : Sink) (w : Writer) : (flush sink w).batch = [] := by
  unfold flush
  split
  · exact List.eq_nil_of_length_eq_zero (by assumption)
  · rfl

theorem flush_stopped (sink : Sink) (w : Writer) : (flush sink w).stopped = w.stopped := by
  unfold flush
  split <;> rfl

theorem flush_batchSize (sink : Sink) (w : Writer) : (flush sink w).batchSize = w.batchSize := by
  unfold flush
  split <;> rfl

theorem flush_calls_nil (sink : Sink) (w : Writer) (h : w.batch = []) : flush sink w = w := by
  unfold flush
  simp [h]

theorem flush_cons (sink : Sink) (w : Writer) (h : w.batch ≠ []) :
    flush sink w =
      { w with db := (batchInsert (sink w.calls.length) w.db w.batch).2
               calls := w.calls ++ [w.batch]
               log := w.log ++
                 [flushLine (batchInsert (sink w.calls.length) w.db w.batch).1 w.batch.length]
               batch := [] } := by
  unfold flush
  rw [if_neg (fun h0 => h (List.eq_nil_of_length_eq_zero h0))]

theorem flush_calls_cons (sink : Sink) (w : Writer) (h : w.batch ≠ []) :
    (flush sink w).calls = w.calls ++ [w.batch] := by
  rw [flush_cons sink w h]

theorem flush_db_cons (sink : Sink) (w : Writer) (h : w.batch ≠ []) :
    (flush sink w).db = (batchInsert (sink w.calls.length) w.db w.batch).2 := by
  rw [flush_cons sink w h]

theorem flush_join (sink : Sink) (w : Writer) :
    (flush sink w).calls.flatten ++ (flush sink w).batch = w.calls.flatten ++ w.batch := by
  by_cases h : w.batch = []
  · rw [flush_calls_nil sink w h]
  · rw [flush_calls_cons sink w h, flush_batch]
    simp

theorem run_nil (sink : Sink) (w : Writer) : run sink w [] = w := rfl

theorem run_cons (sink : Sink) (w : Writer) (ev : Event) (evs : List Event) :
    run sink w (ev :: evs) = run sink (step sink w ev) evs := rfl

theorem run_append (sink : Sink) (w : Writer) (xs ys : List Event) :
    run sink w (xs ++ ys) = run sink (run sink w xs) ys := by
  simp [run, List.foldl_append]

theorem step_of_stopped (sink : Sink) (w : Writer) (ev : Event) (h : w.stopped = true) :
    step sink w ev = w := by
  simp [step, h]

theorem run_of_stopped (sink : Sink) (w : Writer) (evs : List Event) (h : w.stopped = true) :
    run sink w evs = w := by
  induction evs with
  | nil => rfl
  | cons ev rest ih => rw [run_cons, step_of_stopped sink w ev h, ih]

theorem step_running (sink : Sink) (w : Writer) (ev : Event) (h : w.stopped = false) :
    step sink w ev =
      match ev with
      | .closed =>
        { flush sink w with log := (flush sink w).log ++ [.stopped], stopped := true }
      | .recv entry =>
        if w.batchSize ≤ ((w.batch ++ [entry]).length : Int)
        then flush sink { w with batch := w.batch ++ [entry] }
        else { w with batch := w.batch ++ [entry] }
      | .tick => flush sink w := by
  unfold step
  rw [if_neg (by simp [h])]

theorem step_closed_stopped (sink : Sink) (w : Writer) : (step sink w .closed).stopped = true := by
  unfold step
  split
  · assumption
  · rfl

theorem step_stopped_of_ne_closed (sink : Sink) (w : Writer) (ev : Event) (hev : ev ≠ .closed) :
    (step sink w ev).stopped = w.stopped := by
  unfold step
  split
  · rfl
  · cases ev with
    | closed => exact absurd rfl hev
    | tick => exact flush_stopped sink w
    | recv entry =>
      dsimp only
      split
      · rw [flush_stopped]
      · rfl

theorem step_join (sink : Sink) (w : Writer) (ev : Event) (h : w.stopped = false) :
    (step sink w ev).calls.flatten ++ (step sink w ev).batch
      = w.calls.flatten ++ w.batch ++ received [ev] := by
  unfold step
  simp only [h, Bool.false_eq_true, if_false]
  cases ev with
  | closed => simpa [received] using flush_join sink w
  | tick => simpa [received] using flush_join sink w
  | recv entry =>
    dsimp only
    split
    · rw [flush_join]; simp [received]
    · simp [received]

theorem beforeClose_cons_closed (evs : List Event) : beforeClose (.closed :: evs) = [] := by
  simp [beforeClose]

theorem beforeClose_cons (ev : Event) (evs : List Event) (hev : ev ≠ .closed) :
    beforeClose (ev :: evs) = ev :: beforeClose evs := by
  simp [beforeClose, hev]

theorem received_cons (ev : Event) (evs : List Event) :
    received (ev :: evs) = received [ev] ++ received evs := by
  cases ev <;> simp [received]

/-- The records handed to the sink so far, followed by the records still in the
batch, are the records received so far, in arrival order. -/
theorem run_join (sink : Sink) (evs : List Event) :
    ∀ w : Writer, w.stopped = false →
      (run sink w evs).calls.flatten ++ (run sink w evs).batch
        = w.calls.flatten ++ w.batch ++ received (beforeClose evs) := by
  induction evs with
  | nil => intro w _; simp [run_nil, beforeClose, received]
  | cons ev rest ih =>
    intro w h
    rw [run_cons]
    by_cases hev : ev = .closed
    · subst hev
      rw [run_of_stopped sink _ rest (step_closed_stopped sink w), step_join sink w _ h,
        beforeClose_cons_closed]
      simp [received]
    · have hs : (step sink w ev).stopped = false := by
        rw [step_stopped_of_ne_closed sink w ev hev]; exact h
      rw [ih _ hs, step_join sink w ev h, beforeClose_cons ev rest hev,
        received_cons ev (beforeClose rest), List.append_assoc]

theorem flush_similar (s1 s2 : Sink) (a b : Writer) (h : Similar a b) :
    Similar (flush s1 a) (flush s2 b) := by
  obtain ⟨h1, h2, h3, h4⟩ := h
  by_cases hb : a.batch = []
  · have hb2 : b.batch = [] := h2 ▸ hb
    rw [flush_calls_nil s1 a hb, flush_calls_nil s2 b hb2]
    exact ⟨h1, h2, h3, h4⟩
  · have hb2 : b.batch ≠ [] := h2 ▸ hb
    refine ⟨?_, ?_, ?_, ?_⟩
    · rw [flush_batchSize, flush_batchSize, h1]
    · rw [flush_batch, flush_batch]
    · rw [flush_calls_cons s1 a hb, flush_calls_cons s2 b hb2, h2, h3]
    · rw [flush_stopped, flush_stopped, h4]

theorem step_similar (s1 s2 : Sink) (a b : Writer) (ev : Event) (h : Similar a b) :
    Similar (step s1 a ev) (step s2 b ev) := by
  obtain ⟨h1, h2, h3, h4⟩ := h
  by_cases hs : a.stopped = true
  · have hs2 : b.stopped = true := h4 ▸ hs
    rw [step_of_stopped s1 a ev hs, step_of_stopped s2 b ev hs2]
    exact ⟨h1, h2, h3, h4⟩
  · have hs2 : ¬ b.stopped = true := h4 ▸ hs
    rw [step_running s1 a ev (by simpa using hs), step_running s2 b ev (by simpa using hs2)]
    cases ev with
    | closed =>
      have hf := flush_similar s1 s2 a b ⟨h1, h2, h3, h4⟩
      exact ⟨hf.1, hf.2.1, hf.2.2.1, rfl⟩
    | tick => exact flush_similar s1 s2 a b ⟨h1, h2, h3, h4⟩
    | recv entry =>
      have h' : Similar { a with batch := a.batch ++ [entry] }
          { b with batch := b.batch ++ [entry] } :=
        ⟨h1, by simp [h2], h3, h4⟩
      dsimp only
      by_cases hc : a.batchSize ≤ ((a.batch ++ [entry]).length : Int)
      · have hc2 : b.batchSize ≤ ((b.batch ++ [entry]).length : Int) := by rw [← h1, ← h2]; exact hc
        simp only [hc, hc2, if_true]
        exact flush_similar s1 s2 _ _ h'
      · have hc2 : ¬ b.batchSize ≤ ((b.batch ++ [entry]).length : Int) := by
          rw [← h1, ← h2]; exact hc
        simp only [hc, hc2, if_false]
        exact h'

theorem run_similar (s1 s2 : Sink) (evs : List Event) :
    ∀ a b : Writer, Similar a b → Similar (run s1 a evs) (run s2 b evs) := by
  induction evs with
  | nil => intro a b h; exact h
  | cons ev rest ih =>
    intro a b h
    rw [run_cons, run_cons]
    exact ih _ _ (step_similar s1 s2 a b ev h)

/-- Records that do not fill the batch are only appended to it. -/
theorem run_below_size (sink : Sink) (rs : List DataEntry) :
    ∀ w : Writer, w.stopped = false → ((w.batch.length + rs.length : Nat) : Int) < w.batchSize →
      run sink w (rs.map Event.recv) = { w with batch := w.batch ++ rs } := by
  induction rs with
  | nil => intro w _ _; simp [run_nil]
  | cons r rest ih =>
    intro w h hlt
    rw [List.map_cons, run_cons]
    have hstep : step sink w (.recv r) = { w with batch := w.batch ++ [r] } := by
      rw [step_running sink w _ h]
      have : ¬ w.batchSize ≤ ((w.batch ++ [r]).length : Int) := by
        simp only [List.length_append, List.length_singleton, List.length_cons, List.length_nil] at hlt ⊢
        push_cast at hlt ⊢
        omega
      simp only [this, if_false]
    rw [hstep]
    have hlt2 : (((w.batch ++ [r]).length + rest.length : Nat) : Int) < w.batchSize := by
      simp only [List.length_append, List.length_singleton, List.length_cons, List.length_nil] at hlt ⊢
      push_cast at hlt ⊢
      omega
    have := ih { w with batch := w.batch ++ [r] } h hlt2
    rw [this]
    simp

theorem beforeClose_append_closed (evs : List Event) (hev : ∀ ev ∈ evs, ev ≠ Event.closed) :
    beforeClose (evs ++ [Event.closed]) = evs := by
  induction evs with
  | nil => simp [beforeClose]
  | cons ev rest ih =>
    rw [List.cons_append, beforeClose_cons ev _ (hev ev (List.mem_cons_self _ _)),
      ih (fun e he => hev e (List.mem_cons_of_mem _ he))]

theorem applyCalls_append (sink : Sink) (xs ys : List (List DataEntry)) :
    ∀ (n : Nat) (db : DB),
      applyCalls sink n db (xs ++ ys)
        = applyCalls sink (n + xs.length) (applyCalls sink n db xs) ys := by
  induction xs with
  | nil => intro n db; rfl
  | cons c rest ih =>
    intro n db
    rw [List.cons_append, applyCalls, ih, applyCalls, List.length_cons]
    rw [show n + 1 + rest.length = n + (rest.length + 1) by omega]

/-- A flush extends the calls, and the database is the one these calls leave. -/
theorem flush_calls_extends (sink : Sink) (w : Writer) :
    ∃ more, (flush sink w).calls = w.calls ++ more ∧
      (flush sink w).db = applyCalls sink w.calls.length w.db more := by
  by_cases h : w.batch = []
  · exact ⟨[], by rw [flush_calls_nil sink w h]; simp, by rw [flush_calls_nil sink w h]; rfl⟩
  · exact ⟨[w.batch], flush_calls_cons sink w h, by rw [flush_db_cons sink w h]; rfl⟩

theorem step_calls_extends (sink : Sink) (w : Writer) (ev : Event) :
    ∃ more, (step sink w ev).calls = w.calls ++ more ∧
      (step sink w ev).db = applyCalls sink w.calls.length w.db more := by
  by_cases hs : w.stopped = true
  · exact ⟨[], by rw [step_of_stopped sink w ev hs]; simp,
      by rw [step_of_stopped sink w ev hs]; rfl⟩
  · rw [step_running sink w ev (by simpa using hs)]
    cases ev with
    | closed => exact flush_calls_extends sink w
    | tick => exact flush_calls_extends sink w
    | recv entry =>
      dsimp only
      split
      · exact flush_calls_extends sink { w with batch := w.batch ++ [entry] }
      · exact ⟨[], by simp, rfl⟩

theorem run_calls_extends (sink : Sink) (evs : List Event) :
    ∀ w : Writer, ∃ more, (run sink w evs).calls = w.calls ++ more ∧
      (run sink w evs).db = applyCalls sink w.calls.length w.db more := by
  induction evs with
  | nil => intro w; exact ⟨[], by simp [run_nil], rfl⟩
  | cons ev rest ih =>
    intro w
    obtain ⟨m1, h1, d1⟩ := step_calls_extends sink w ev
    obtain ⟨m2, h2, d2⟩ := ih (step sink w ev)
    refine ⟨m1 ++ m2, by rw [run_cons, h2, h1, List.append_assoc], ?_⟩
    rw [run_cons, d2, d1, h1, applyCalls_append, List.length_append]

theorem run_running (sink : Sink) (evs : List Event) (hev : ∀ ev ∈ evs, ev ≠ Event.closed) :
    ∀ w : Writer, w.stopped = false → (run sink w evs).stopped = false := by
  induction evs with
  | nil => intro w h; exact h
  | cons ev rest ih =>
    intro w h
    rw [run_cons]
    apply ih (fun e he => hev e (List.mem_cons_of_mem _ he))
    rw [step_stopped_of_ne_closed sink w ev (hev ev (List.mem_cons_self _ _))]
    exact h

/-! ## `batchInsert` -/

theorem execAll_ok (o : SinkOutcome) (ts : Nat) (entries : List DataEntry) :
    ∀ (i : Nat) (pending : List Row), (∀ j, j < entries.length → o.execOk (i + j) = true) →
      execAll o ts i entries pending = .ok (pending ++ entries.map (rowOf ts)) := by
  induction entries with
  | nil => intro i pending _; simp [execAll]
  | cons e rest ih =>
    intro i pending h
    have h0 : o.execOk i = true := by simpa using h 0 (by simp)
    rw [execAll, if_pos h0, ih (i + 1) _ (fun j hj => by
      have := h (j + 1) (by simpa using hj)
      rw [show i + 1 + j = i + (j + 1) by omega]
      exact this)]
    simp

theorem execAll_all_ok (o : SinkOutcome) (ts : Nat) (entries : List DataEntry) :
    ∀ (i : Nat) (pending result : List Row), execAll o ts i entries pending = .ok result →
      ∀ j, j < entries.length → o.execOk (i + j) = true := by
  induction entries with
  | nil => intro i pending result _ j hj; simp at hj
  | cons e rest ih =>
    intro i pending result h j hj
    by_cases h0 : o.execOk i = true
    · rw [execAll, if_pos h0] at h
      cases j with
      | zero => exact h0
      | succ j =>
        have := ih (i + 1) _ result h j (by simpa using hj)
        rw [show i + (j + 1) = i + 1 + j by omega]
        exact this
    · rw [execAll, if_neg h0] at h
      cases h


/-- On a sink where every step succeeds `batchInsert` commits one row per entry,
in entry order. -/
theorem batchInsert_committed (o : SinkOutcome) (db : DB) (entries : List DataEntry)
    (hne : entries ≠ []) (hb : o.beginOk = true) (hp : o.prepareOk = true)
    (hall : ∀ i, i < entries.length → o.execOk i = true) (hc : o.commit = .committed) :
    batchInsert o db entries =
      (none, { rows := db.rows ++ entries.map (rowOf o.now)
               begun := db.begun + 1
               rolledBack := db.rolledBack }) := by
  unfold batchInsert
  rw [if_neg (fun h0 => hne (List.eq_nil_of_length_eq_zero h0)), if_neg (by simp [hb])]
  dsimp only
  rw [if_neg (by simp [hp]),
    execAll_ok o o.now entries 0 [] (fun j hj => by simpa using hall j hj)]
  dsimp only
  rw [hc]
  simp

theorem applyCalls_rows (sink : Sink) (hsink : Healthy sink) (calls : List (List DataEntry)) :
    ∀ (n : Nat) (db : DB),
      (applyCalls sink n db calls).rows.map rowEntry
        = db.rows.map rowEntry ++ calls.flatten := by
  induction calls with
  | nil => intro n db; simp [applyCalls]
  | cons c rest ih =>
    intro n db
    rw [applyCalls, ih]
    by_cases hc : c = []
    · subst hc
      simp [batchInsert]
    · obtain ⟨hb, hp, he, hcm⟩ := hsink n
      rw [batchInsert_committed (sink n) db c hc hb hp (fun i _ => he i) hcm]
      have hmap : (c.map (rowOf (sink n).now)).map rowEntry = c := by
        rw [List.map_map]
        conv_rhs => rw [← List.map_id c]
        apply List.map_congr_left
        intro e _
        rfl
      simp only [List.map_append, hmap, List.flatten_cons, List.append_assoc]

/-! ## The batch writer: the claims -/

/-- C1 (batch trigger): a running writer with an empty batch and `batchSize >= 1`
that receives `batchSize` records with no tick in between does nothing on the
first `batchSize - 1` arrivals but append the record to the batch (no call, the
database and the log untouched), and on the last arrival calls `batchInsert`
exactly once, with exactly the records in arrival order: the calls grow by that
one batch, the database is what this call of `batchInsert` on the sink leaves,
the outcome of the call is logged, and the batch is empty. -/
theorem batch_trigger (sink : Sink) (w : Writer) (rs : List DataEntry)
    (hempty : w.batch = []) (hrun : w.stopped = false) (hsize : 1 ≤ w.batchSize)
    (hk : (rs.length : Int) = w.batchSize) :
    (∀ j, j < rs.length →
      run sink w ((rs.take j).map Event.recv) = { w with batch := rs.take j }) ∧
    (run sink w (rs.map Event.recv)).calls = w.calls ++ [rs] ∧
    (run sink w (rs.map Event.recv)).batch = [] ∧
    (run sink w (rs.map Event.recv)).db = (batchInsert (sink w.calls.length) w.db rs).2 ∧
    (run sink w (rs.map Event.recv)).log
      = w.log ++ [flushLine (batchInsert (sink w.calls.length) w.db rs).1 rs.length] := by
  have hbelow : ∀ j, j < rs.length →
      run sink w ((rs.take j).map Event.recv) = { w with batch := rs.take j } := by
    intro j hj
    have hlt : ((w.batch.length + (rs.take j).length : Nat) : Int) < w.batchSize := by
      rw [hempty, ← hk, List.length_take]
      simp only [List.length_nil]
      omega
    rw [run_below_size sink (rs.take j) w hrun hlt, hempty]
    rfl
  refine ⟨hbelow, ?_⟩
  have hne : rs ≠ [] := by
    intro h
    rw [h] at hk
    simp only [List.length_nil] at hk
    omega
  have hsplit : rs = rs.dropLast ++ [rs.getLast hne] := (List.dropLast_append_getLast hne).symm
  have hinit : rs.dropLast = rs.take (rs.length - 1) := List.dropLast_eq_take rs
  have hpos : 0 < rs.length := List.length_pos.mpr hne
  have hrun1 : run sink w (rs.map Event.recv)
      = step sink { w with batch := rs.dropLast } (.recv (rs.getLast hne)) := by
    conv_lhs => rw [hsplit]
    rw [List.map_append, run_append, hinit, hbelow (rs.length - 1) (by omega)]
    rfl
  have hstep : step sink { w with batch := rs.dropLast } (.recv (rs.getLast hne))
      = flush sink { w with batch := rs } := by
    rw [step_running sink { w with batch := rs.dropLast } _ hrun]
    dsimp only
    rw [← hsplit, if_pos (le_of_eq hk.symm)]
  rw [hrun1, hstep, flush_cons sink { w with batch := rs } hne]
  exact ⟨rfl, rfl, rfl, rfl⟩

/-- Witness of C1: `batchSize = 3`, records A, B, C on a sink whose first
transaction fails at the second insert: one call with `[A, B, C]` on the arrival
of C, which the sink rolls back, and none before. -/
theorem batch_trigger_witness :
    (run failFirstSink (freshWriter 3) ([recA, recB, recC].map Event.recv)).db
      = { rows := [], begun := 1, rolledBack := 1 } ∧
    (run failFirstSink (freshWriter 3) ([recA, recB, recC].map Event.recv)).log
      = [LogLine.insertFailed (InsertError.execFailed 1)] ∧
    (run okSink (freshWriter 3) ([recA, recB, recC].map Event.recv)).db.rows.map rowEntry
      = [recA, recB, recC] ∧
    ((∀ j, j < 3 →
      run failFirstSink (freshWriter 3) (([recA, recB, recC].take j).map Event.recv)
        = { freshWriter 3 with batch := [recA, recB, recC].take j }) ∧
    (run failFirstSink (freshWriter 3) ([recA, recB, recC].map Event.recv)).calls
      = [] ++ [[recA, recB, recC]] ∧
    (run failFirstSink (freshWriter 3) ([recA, recB, recC].map Event.recv)).batch = [] ∧
    (run failFirstSink (freshWriter 3) ([recA, recB, recC].map Event.recv)).db
      = (batchInsert (failFirstSink 0) emptyDB [recA, recB, recC]).2 ∧
    (run failFirstSink (freshWriter 3) ([recA, recB, recC].map Event.recv)).log
      = [] ++ [flushLine (batchInsert (failFirstSink 0) emptyDB [recA, recB, recC]).1 3]) :=
  ⟨rfl, rfl, rfl,
    batch_trigger failFirstSink (freshWriter 3) [recA, recB, recC] rfl rfl (by decide) rfl⟩

/-- C2 (failure isolation): a flush of a non-empty batch leaves the batch empty
and records exactly one call, whatever the sink answers; the calls made afterwards
carry, together with the batch, exactly the records received afterwards, so the
flushed batch is never handed to the sink again; and the sequence of batches
handed to `batchInsert` over any events is the same for any two sinks. The
database after the flush is what the one call of `batchInsert` leaves, and the
database after the later events is what the later calls leave, one after the
other. -/
theorem failure_isolation (sink other : Sink) (w : Writer) (evs : List Event)
    (hbatch : w.batch ≠ []) (hrun : w.stopped = false) :
    (flush sink w).batch = [] ∧
    (flush sink w).calls = w.calls ++ [w.batch] ∧
    ((run sink (flush sink w) evs).calls.drop (w.calls.length + 1)).flatten
        ++ (run sink (flush sink w) evs).batch = received (beforeClose evs) ∧
    (run sink w evs).calls = (run other w evs).calls ∧
    (flush sink w).db = (batchInsert (sink w.calls.length) w.db w.batch).2 ∧
    (run sink (flush sink w) evs).db
      = applyCalls sink (w.calls.length + 1) (flush sink w).db
          ((run sink (flush sink w) evs).calls.drop (w.calls.length + 1)) := by
  obtain ⟨more, hmore, hdb⟩ := run_calls_extends sink evs (flush sink w)
  have hlen : w.calls.length + 1 = (w.calls ++ [w.batch]).length := by simp
  refine ⟨flush_batch sink w, flush_calls_cons sink w hbatch, ?_,
    (run_similar sink other evs w w ⟨rfl, rfl, rfl, rfl⟩).2.2.1,
    flush_db_cons sink w hbatch, ?_⟩
  · have hj := run_join sink evs (flush sink w) (by rw [flush_stopped]; exact hrun)
    rw [hmore, flush_calls_cons sink w hbatch] at hj ⊢
    rw [hlen, List.drop_left]
    rw [flush_batch, List.flatten_append, List.append_nil, List.append_assoc] at hj
    exact List.append_cancel_left hj
  · rw [hdb, hmore, flush_calls_cons sink w hbatch, hlen, List.drop_left]

/-- Witness of C2: with `batchSize = 3` the flush of `[A, B, C]` fails on the
sink; record D and a tick then give a next call with exactly `[D]`. -/
theorem failure_isolation_witness :
    (flush failFirstSink { freshWriter 3 with batch := [recA, recB, recC] }).log
      = [LogLine.insertFailed (InsertError.execFailed 1)] ∧
    (run failFirstSink (flush failFirstSink { freshWriter 3 with batch := [recA, recB, recC] })
      [Event.recv recD, Event.tick]).calls = [[recA, recB, recC], [recD]] ∧
    (run failFirstSink (flush failFirstSink { freshWriter 3 with batch := [recA, recB, recC] })
      [Event.recv recD, Event.tick]).db.rows.map rowEntry = [recD] ∧
    ((flush failFirstSink { freshWriter 3 with batch := [recA, recB, recC] }).batch = [] ∧
     (flush failFirstSink { freshWriter 3 with batch := [recA, recB, recC] }).calls
       = [] ++ [[recA, recB, recC]] ∧
     ((run failFirstSink (flush failFirstSink { freshWriter 3 with batch := [recA, recB, recC] })
        [Event.recv recD, Event.tick]).calls.drop (0 + 1)).flatten
        ++ (run failFirstSink (flush failFirstSink
              { freshWriter 3 with batch := [recA, recB, recC] })
            [Event.recv recD, Event.tick]).batch
        = received (beforeClose [Event.recv recD, Event.tick]) ∧
     (run failFirstSink { freshWriter 3 with batch := [recA, recB, recC] }
        [Event.recv recD, Event.tick]).calls
       = (run okSink { freshWriter 3 with batch := [recA, recB, recC] }
          [Event.recv recD, Event.tick]).calls ∧
     (flush failFirstSink { freshWriter 3 with batch := [recA, recB, recC] }).db
       = (batchInsert (failFirstSink 0) emptyDB [recA, recB, recC]).2 ∧
     (run failFirstSink (flush failFirstSink { freshWriter 3 with batch := [recA, recB, recC] })
        [Event.recv recD, Event.tick]).db
       = applyCalls failFirstSink (0 + 1)
          (flush failFirstSink { freshWriter 3 with batch := [recA, recB, recC] }).db
          ((run failFirstSink (flush failFirstSink
              { freshWriter 3 with batch := [recA, recB, recC] })
            [Event.recv recD, Event.tick]).calls.drop (0 + 1))) :=
  ⟨rfl, rfl, rfl,
    failure_isolation failFirstSink okSink { freshWriter 3 with batch := [recA, recB, recC] }
      [Event.recv recD, Event.tick] (by simp) rfl⟩

/-- C3 (drain on close): when a running writer observes its channel closed it
stops; it calls `batchInsert` exactly once, with the remaining batch, when that
batch is non-empty, and does not touch the sink when it is empty; and whatever
events follow, nothing changes any more. -/
theorem drain_on_close (sink : Sink) (w : Writer) (later : List Event)
    (hrun : w.stopped = false) :
    (step sink w .closed).stopped = true ∧
    (step sink w .closed).batch = [] ∧
    (w.batch ≠ [] →
      (step sink w .closed).calls = w.calls ++ [w.batch] ∧
      (step sink w .closed).db = (batchInsert (sink w.calls.length) w.db w.batch).2) ∧
    (w.batch = [] →
      (step sink w .closed).calls = w.calls ∧ (step sink w .closed).db = w.db) ∧
    run sink (step sink w .closed) later = step sink w .closed := by
  refine ⟨step_closed_stopped sink w, ?_, ?_, ?_,
    run_of_stopped sink _ later (step_closed_stopped sink w)⟩
  · rw [step_running sink w _ hrun]
    exact flush_batch sink w
  · intro hne
    rw [step_running sink w _ hrun]
    refine ⟨flush_calls_cons sink w hne, ?_⟩
    have : w.batch.length ≠ 0 := fun h0 => hne (List.eq_nil_of_length_eq_zero h0)
    simp [flush, this]
  · intro he
    rw [step_running sink w _ hrun]
    dsimp only
    rw [flush_calls_nil sink w he]
    exact ⟨rfl, rfl⟩

/-- Witness of C3: a writer holding `[A, B]` that observes the close, followed by
a tick, a record and a second close. -/
theorem drain_on_close_witness :
    (step okSink { freshWriter 3 with batch := [recA, recB] } .closed).calls = [[recA, recB]] ∧
    ((step okSink { freshWriter 3 with batch := [recA, recB] } .closed).stopped = true ∧
     (step okSink { freshWriter 3 with batch := [recA, recB] } .closed).batch = [] ∧
     (({ freshWriter 3 with batch := [recA, recB] } : Writer).batch ≠ [] →
       (step okSink { freshWriter 3 with batch := [recA, recB] } .closed).calls
         = [] ++ [[recA, recB]] ∧
       (step okSink { freshWriter 3 with batch := [recA, recB] } .closed).db
         = (batchInsert (okSink 0) emptyDB [recA, recB]).2) ∧
     (({ freshWriter 3 with batch := [recA, recB] } : Writer).batch = [] →
       (step okSink { freshWriter 3 with batch := [recA, recB] } .closed).calls = [] ∧
       (step okSink { freshWriter 3 with batch := [recA, recB] } .closed).db = emptyDB) ∧
     run okSink (step okSink { freshWriter 3 with batch := [recA, recB] } .closed)
         [Event.tick, Event.recv recC, Event.closed]
       = step okSink { freshWriter 3 with batch := [recA, recB] } .closed) :=
  ⟨rfl, drain_on_close okSink { freshWriter 3 with batch := [recA, recB] }
    [Event.tick, Event.recv recC, Event.closed] rfl⟩

/-- C4 (order preservation): for every `batchSize >= 1`, every writer that
starts and every finite sequence of record arrivals and ticks ended by the close
of the channel: the batches handed to `batchInsert`, concatenated in call order,
are exactly the records received, in arrival order; the database is what these
calls of `batchInsert` leave, made one after the other in that order; nothing is
left in the batch and the writer has stopped. On a sink where every step succeeds
the table has gained exactly the records received, in arrival order. The writer
starts whenever `batchSize` is within the capacity `make` grants (above it `make`
panics and no record is ever received). -/
theorem order_preservation (sink : Sink) (maxCap : Nat) (batchSize : Int) (db : DB)
    (evs : List Event) (hsize : 1 ≤ batchSize) (hev : ∀ ev ∈ evs, ev ≠ Event.closed) :
    (batchSize ≤ (maxCap : Int) → ∃ w, newWriter maxCap batchSize db = some w) ∧
    ∀ w, newWriter maxCap batchSize db = some w →
      (run sink w (evs ++ [Event.closed])).calls.flatten = received evs ∧
      (run sink w (evs ++ [Event.closed])).batch = [] ∧
      (run sink w (evs ++ [Event.closed])).stopped = true ∧
      (run sink w (evs ++ [Event.closed])).db
        = applyCalls sink 0 db (run sink w (evs ++ [Event.closed])).calls ∧
      (Healthy sink →
        (run sink w (evs ++ [Event.closed])).db.rows.map rowEntry
          = db.rows.map rowEntry ++ received evs) := by
  constructor
  · intro hcap
    unfold newWriter
    rw [if_neg (by omega)]
    exact ⟨_, rfl⟩
  · intro w hw
    unfold newWriter at hw
    split at hw
    · cases hw
    · have hw2 := Option.some.inj hw
      have hs : w.stopped = false := by rw [← hw2]
      have hb : w.batch = [] := by rw [← hw2]
      have hc : w.calls = [] := by rw [← hw2]
      have hd : w.db = db := by rw [← hw2]
      have hj := run_join sink (evs ++ [Event.closed]) w hs
      rw [beforeClose_append_closed evs hev, hb, hc] at hj
      have hlast : (run sink w (evs ++ [Event.closed])).batch = [] ∧
          (run sink w (evs ++ [Event.closed])).stopped = true := by
        rw [run_append, run_cons, run_nil,
          step_running sink _ _ (run_running sink evs hev w hs)]
        exact ⟨flush_batch sink _, rfl⟩
      rw [hlast.1] at hj
      have hflat : (run sink w (evs ++ [Event.closed])).calls.flatten = received evs := by
        simpa using hj
      obtain ⟨more, hmore, hdb⟩ := run_calls_extends sink (evs ++ [Event.closed]) w
      rw [hc, hd] at hdb
      rw [hc, List.nil_append] at hmore
      have hdb2 : (run sink w (evs ++ [Event.closed])).db
          = applyCalls sink 0 db (run sink w (evs ++ [Event.closed])).calls := by
        rw [hdb, hmore]
        rfl
      refine ⟨hflat, hlast.1, hlast.2, hdb2, ?_⟩
      intro hsink
      rw [hdb2, applyCalls_rows sink hsink, hflat]

/-- Witness of C4: `batchSize = 2`, the events A, tick, B, C, tick, D and the
close, on a sink where every step succeeds: the writer starts and the table ends
up with A, B, C, D in this order. -/
theorem order_preservation_witness :
    ∃ w, newWriter maxSliceCap 2 emptyDB = some w ∧
      (run okSink w ([Event.recv recA, Event.tick, Event.recv recB, Event.recv recC,
          Event.tick, Event.recv recD] ++ [Event.closed])).calls
        = [[recA], [recB, recC], [recD]] ∧
      (run okSink w ([Event.recv recA, Event.tick, Event.recv recB, Event.recv recC,
          Event.tick, Event.recv recD] ++ [Event.closed])).db.rows.map rowEntry
        = [recA, recB, recC, recD] ∧
      (run okSink w ([Event.recv recA, Event.tick, Event.recv recB, Event.recv recC,
          Event.tick, Event.recv recD] ++ [Event.closed])).calls.flatten
        = received [Event.recv recA, Event.tick, Event.recv recB, Event.recv recC,
          Event.tick, Event.recv recD] :=
  ⟨_, rfl, rfl, rfl,
    ((order_preservation okSink maxSliceCap 2 emptyDB [Event.recv recA, Event.tick,
      Event.recv recB, Event.recv recC, Event.tick, Event.recv recD]
      (by decide) (by decide)).2 _ rfl).1⟩

/-! ## `batchInsert`: the claim -/

theorem batchInsert_begin_failed (o : SinkOutcome) (db : DB) (entries : List DataEntry)
    (hne : entries ≠ []) (hb : o.beginOk = false) :
    batchInsert o db entries = (some .beginFailed, db) := by
  unfold batchInsert
  rw [if_neg (fun h0 => hne (List.eq_nil_of_length_eq_zero h0)), if_pos (by simp [hb])]

theorem batchInsert_prepare_failed (o : SinkOutcome) (db : DB) (entries : List DataEntry)
    (hne : entries ≠ []) (hb : o.beginOk = true) (hp : o.prepareOk = false) :
    batchInsert o db entries =
      (some .prepareFailed,
        { rows := db.rows, begun := db.begun + 1, rolledBack := db.rolledBack + 1 }) := by
  unfold batchInsert
  rw [if_neg (fun h0 => hne (List.eq_nil_of_length_eq_zero h0)), if_neg (by simp [hb])]
  dsimp only
  rw [if_pos (by simp [hp])]
  rfl

theorem batchInsert_exec_failed (o : SinkOutcome) (db : DB) (entries : List DataEntry)
    (hne : entries ≠ []) (hb : o.beginOk = true) (hp : o.prepareOk = true)
    (hall : ¬ ∀ i, i < entries.length → o.execOk i = true) :
    ∃ k, batchInsert o db entries =
      (some (.execFailed k),
        { rows := db.rows, begun := db.begun + 1, rolledBack := db.rolledBack + 1 }) := by
  unfold batchInsert
  rw [if_neg (fun h0 => hne (List.eq_nil_of_length_eq_zero h0)), if_neg (by simp [hb])]
  dsimp only
  rw [if_neg (by simp [hp])]
  cases hx : execAll o o.now 0 entries [] with
  | ok pending =>
    exact absurd (fun i hi => by
      simpa using execAll_all_ok o o.now entries 0 [] pending hx i hi) hall
  | error k => exact ⟨k, rfl⟩

theorem batchInsert_commit_failed (o : SinkOutcome) (db : DB) (entries : List DataEntry)
    (hne : entries ≠ []) (hb : o.beginOk = true) (hp : o.prepareOk = true)
    (hall : ∀ i, i < entries.length → o.execOk i = true) (hc : o.commit = .failed) :
    batchInsert o db entries =
      (some .commitFailed,
        { rows := db.rows, begun := db.begun + 1, rolledBack := db.rolledBack }) := by
  unfold batchInsert
  rw [if_neg (fun h0 => hne (List.eq_nil_of_length_eq_zero h0)), if_neg (by simp [hb])]
  dsimp only
  rw [if_neg (by simp [hp]),
    execAll_ok o o.now entries 0 [] (fun j hj => by simpa using hall j hj)]
  dsimp only
  rw [hc]

theorem batchInsert_commit_contextDone (o : SinkOutcome) (db : DB) (entries : List DataEntry)
    (hne : entries ≠ []) (hb : o.beginOk = true) (hp : o.prepareOk = true)
    (hall : ∀ i, i < entries.length → o.execOk i = true) (hc : o.commit = .contextDone) :
    batchInsert o db entries =
      (some .commitFailed,
        { rows := db.rows, begun := db.begun + 1, rolledBack := db.rolledBack + 1 }) := by
  unfold batchInsert
  rw [if_neg (fun h0 => hne (List.eq_nil_of_length_eq_zero h0)), if_neg (by simp [hb])]
  dsimp only
  rw [if_neg (by simp [hp]),
    execAll_ok o o.now entries 0 [] (fun j hj => by simpa using hall j hj)]
  dsimp only
  rw [hc]
  rfl

/-- C5 (transactional flush), as the code has it. `batchInsert` on an empty list
returns nil and leaves the database untouched, opening no transaction. On a
non-empty list it returns nil exactly when begin, prepare, every insert and
commit succeed; then the table gained one row per entry, in entry order, with
`source_addr`, `data_size = len(Data)`, `raw_data` of the entry and the one
timestamp of the call, in one transaction that was not rolled back. When it
returns an error no row of the batch is in the table. When begin failed nothing
was opened. When prepare or an insert failed, or the context had expired when
`Commit` was called, the transaction is rolled back. When the commit was
attempted on the sink and failed, no rollback is issued: the deferred `Rollback`
finds the transaction done. -/
theorem transactional_flush (o : SinkOutcome) (db : DB) (entries : List DataEntry) :
    (entries = [] → batchInsert o db entries = (none, db)) ∧
    (entries ≠ [] →
      ((batchInsert o db entries).1 = none ↔
        (o.beginOk = true ∧ o.prepareOk = true ∧
          (∀ i, i < entries.length → o.execOk i = true) ∧ o.commit = .committed)) ∧
      ((batchInsert o db entries).1 = none →
        (batchInsert o db entries).2 =
          { rows := db.rows ++ entries.map (fun entry =>
              { time := o.now, source_addr := entry.SourceAddr,
                data_size := entry.Data.length, raw_data := entry.Data })
            begun := db.begun + 1
            rolledBack := db.rolledBack }) ∧
      ((batchInsert o db entries).1 ≠ none →
        (batchInsert o db entries).2.rows = db.rows ∧
        (o.beginOk = false → (batchInsert o db entries).2 = db) ∧
        (o.beginOk = true →
          (o.prepareOk = false ∨ (¬ ∀ i, i < entries.length → o.execOk i = true) ∨
            o.commit = .contextDone) →
          (batchInsert o db entries).2 =
            { rows := db.rows, begun := db.begun + 1, rolledBack := db.rolledBack + 1 }) ∧
        (o.beginOk = true → o.prepareOk = true →
          (∀ i, i < entries.length → o.execOk i = true) → o.commit = .failed →
          (batchInsert o db entries).2 =
            { rows := db.rows, begun := db.begun + 1, rolledBack := db.rolledBack }))) := by
  constructor
  · intro h
    simp [batchInsert, h]
  · intro hne
    by_cases hb : o.beginOk = true
    · by_cases hp : o.prepareOk = true
      · by_cases hall : ∀ i, i < entries.length → o.execOk i = true
        · cases hc : o.commit with
          | committed =>
            rw [batchInsert_committed o db entries hne hb hp hall hc]
            exact ⟨⟨fun _ => ⟨hb, hp, hall, rfl⟩, fun _ => rfl⟩, fun _ => rfl,
              fun h => absurd rfl h⟩
          | failed =>
            rw [batchInsert_commit_failed o db entries hne hb hp hall hc]
            refine ⟨⟨fun h => by simp at h, fun h => by simp at h⟩, fun h => by simp at h,
              fun _ => ⟨rfl, fun h => by simp [hb] at h, fun _ h => ?_, fun _ _ _ _ => rfl⟩⟩
            rcases h with h | h | h
            · simp [hp] at h
            · exact absurd hall h
            · simp at h
          | contextDone =>
            rw [batchInsert_commit_contextDone o db entries hne hb hp hall hc]
            exact ⟨⟨fun h => by simp at h, fun h => by simp at h⟩, fun h => by simp at h,
              fun _ => ⟨rfl, fun h => by simp [hb] at h, fun _ _ => rfl,
                fun _ _ _ h => by simp at h⟩⟩
        · obtain ⟨k, hk⟩ := batchInsert_exec_failed o db entries hne hb hp hall
          rw [hk]
          exact ⟨⟨fun h => by simp at h, fun h => absurd h.2.2.1 hall⟩, fun h => by simp at h,
            fun _ => ⟨rfl, fun h => by simp [hb] at h, fun _ _ => rfl,
              fun _ _ h _ => absurd h hall⟩⟩
      · rw [batchInsert_prepare_failed o db entries hne hb (by simpa using hp)]
        exact ⟨⟨fun h => by simp at h, fun h => absurd h.2.1 hp⟩, fun h => by simp at h,
          fun _ => ⟨rfl, fun h => by simp [hb] at h, fun _ _ => rfl,
            fun _ h _ _ => absurd h hp⟩⟩
    · rw [batchInsert_begin_failed o db entries hne (by simpa using hb)]
      exact ⟨⟨fun h => by simp at h, fun h => absurd h.1 hb⟩, fun h => by simp at h,
        fun _ => ⟨rfl, fun _ => rfl, fun h _ => absurd h hb, fun h _ _ _ => absurd h hb⟩⟩

/-- Witness of C5 as amended: two entries on a sink where every step succeeds,
and three entries on a sink whose second insert fails. -/
theorem transactional_flush_witness :
    [recA, recB] ≠ [] ∧
    (batchInsert (failFirstSink 0) emptyDB [recA, recB, recC])
      = (some (InsertError.execFailed 1), { rows := [], begun := 1, rolledBack := 1 }) ∧
    (batchInsert (okSink 0) emptyDB [recA, recB]).1 = none ∧
    (batchInsert (okSink 0) emptyDB [recA, recB]).2 =
      { rows := [{ time := 1000, source_addr := udpAddr, data_size := 1, raw_data := [1] },
                 { time := 1000, source_addr := udpAddr, data_size := 2, raw_data := [2, 2] }]
        begun := 1
        rolledBack := 0 } :=
  ⟨by simp, rfl, rfl,
    ((transactional_flush (okSink 0) emptyDB [recA, recB]).2 (by simp)).2.1 rfl⟩

/-- Counterexample to C5 as stated: on a sink whose `Commit` is attempted and
fails, `batchInsert` of `[A, B]` returns the commit error with a transaction
begun and no rollback issued: the failed step did not lead to a rollback. -/
theorem transactional_flush_counterexample :
    (commitFailSink 0).commit = CommitOutcome.failed ∧
    batchInsert (commitFailSink 0) emptyDB [recA, recB]
      = (some InsertError.commitFailed, { rows := [], begun := 1, rolledBack := 0 }) :=
  ⟨rfl, rfl⟩

/-! ## The ticker: lemmas -/

theorem step_tick_empty (sink : Sink) (w : Writer) (h : w.batch = []) :
    step sink w .tick = w := by
  by_cases hs : w.stopped = true
  · exact step_of_stopped sink w _ hs
  · rw [step_running sink w _ (by simpa using hs)]
    exact flush_calls_nil sink w h

theorem tickOnce_empty (sink : Sink) (s : Timed) (h : s.w.batch = []) :
    tickOnce sink s = { s with next := s.next + s.period } := by
  simp [tickOnce, handleAt, step_tick_empty sink s.w h]

theorem tickN_empty (sink : Sink) (n : Nat) :
    ∀ s : Timed, s.w.batch = [] → tickN sink n s = { s with next := s.next + n * s.period } := by
  induction n with
  | zero => intro s _; simp [tickN]
  | succ n ih =>
    intro s h
    rw [tickN, tickOnce_empty sink s h,
      ih { s with next := s.next + s.period } h]
    simp only [Timed.mk.injEq, true_and, and_true]
    rw [Nat.add_mul, Nat.one_mul]
    omega

theorem waitUntil_early (sink : Sink) (s : Timed) (upto : Nat) (h : upto < s.next) :
    waitUntil sink s upto = s := by
  have : ticksDue s upto = 0 := by
    unfold ticksDue
    rw [if_neg (by omega)]
  rw [waitUntil, this]
  rfl

theorem tickOnce_flush (sink : Sink) (s : Timed) (hrun : s.w.stopped = false)
    (hb : s.w.batch ≠ []) :
    (tickOnce sink s).w.calls = s.w.calls ++ [s.w.batch] ∧ (tickOnce sink s).w.batch = [] ∧
    (tickOnce sink s).flushTimes = s.flushTimes ++ [s.next] ∧
    (tickOnce sink s).next = s.next + s.period ∧ (tickOnce sink s).period = s.period := by
  have hstep : step sink s.w .tick = flush sink s.w := step_running sink s.w _ hrun
  have hc := flush_calls_cons sink s.w hb
  refine ⟨?_, ?_, ?_, rfl, rfl⟩
  · simp only [tickOnce, handleAt, hstep, hc]
  · simp only [tickOnce, handleAt, hstep, flush_batch]
  · simp only [tickOnce, handleAt, hstep, hc]
    rw [if_neg (by simp)]

/-- A running writer with a non-empty batch flushes it at the next tick, and at
no later tick. -/
theorem waitUntil_flush (sink : Sink) (s : Timed) (upto : Nat) (hrun : s.w.stopped = false)
    (hb : s.w.batch ≠ []) (h : s.next ≤ upto) :
    (waitUntil sink s upto).w.calls = s.w.calls ++ [s.w.batch] ∧
    (waitUntil sink s upto).w.batch = [] ∧
    (waitUntil sink s upto).flushTimes = s.flushTimes ++ [s.next] := by
  have hn : ticksDue s upto = (upto - s.next) / s.period + 1 := by
    unfold ticksDue
    rw [if_pos h]
  obtain ⟨h1, h2, h3, _, _⟩ := tickOnce_flush sink s hrun hb
  rw [waitUntil, hn, tickN, tickN_empty sink _ _ h2]
  exact ⟨h1, h2, h3⟩

theorem handleAt_recv_below (sink : Sink) (s : Timed) (t : Nat) (e : DataEntry)
    (hrun : s.w.stopped = false) (hlt : (s.w.batch.length : Int) + 1 < s.w.batchSize) :
    handleAt sink s t (.recv e) = { s with w := { s.w with batch := s.w.batch ++ [e] } } := by
  have hstep : step sink s.w (.recv e) = { s.w with batch := s.w.batch ++ [e] } := by
    rw [step_running sink s.w _ hrun]
    dsimp only
    rw [if_neg]
    simp only [List.length_append, List.length_singleton, List.length_cons, List.length_nil]
    push_cast
    omega
  simp [handleAt, hstep]

theorem handleAt_recv_full (sink : Sink) (s : Timed) (t : Nat) (e : DataEntry)
    (hrun : s.w.stopped = false) (hfull : s.w.batchSize ≤ (s.w.batch.length : Int) + 1) :
    (handleAt sink s t (.recv e)).w.calls = s.w.calls ++ [s.w.batch ++ [e]] ∧
    (handleAt sink s t (.recv e)).w.batch = [] ∧
    (handleAt sink s t (.recv e)).w.stopped = false ∧
    (handleAt sink s t (.recv e)).w.batchSize = s.w.batchSize ∧
    (handleAt sink s t (.recv e)).flushTimes = s.flushTimes ++ [t] := by
  have hstep : step sink s.w (.recv e) = flush sink { s.w with batch := s.w.batch ++ [e] } := by
    rw [step_running sink s.w _ hrun]
    dsimp only
    rw [if_pos]
    simp only [List.length_append, List.length_singleton, List.length_cons, List.length_nil]
    push_cast
    omega
  have hc := flush_calls_cons sink { s.w with batch := s.w.batch ++ [e] } (by simp)
  refine ⟨?_, ?_, ?_, ?_, ?_⟩
  · simp only [handleAt, hstep, hc]
  · simp only [handleAt, hstep, flush_batch]
  · simp only [handleAt, hstep, flush_stopped, hrun]
  · simp only [handleAt, hstep, flush_batchSize]
  · simp only [handleAt, hstep, hc]
    rw [if_neg (by simp)]

/-- C10 (size-triggered flush and the flush timer), as the code has it. When a
record arrives at time `t`, before the next scheduled tick, and brings the batch
to `batchSize`, the writer flushes the batch at `t` and the ticker keeps its
period and its schedule: the next tick is still due at the time scheduled before.
A record that arrives after the size-triggered flush and before that tick is
therefore flushed at the previously scheduled tick, not a full `flushInterval`
after the size-triggered flush. -/
theorem size_flush_keeps_ticker (sink : Sink) (s : Timed) (t : Nat) (e : DataEntry)
    (hrun : s.w.stopped = false) (hnext : t < s.next)
    (hfull : s.w.batchSize ≤ (s.w.batch.length : Int) + 1) :
    (feedAt sink s t (.recv e)).w.calls = s.w.calls ++ [s.w.batch ++ [e]] ∧
    (feedAt sink s t (.recv e)).w.batch = [] ∧
    (feedAt sink s t (.recv e)).flushTimes = s.flushTimes ++ [t] ∧
    (feedAt sink s t (.recv e)).next = s.next ∧
    (feedAt sink s t (.recv e)).period = s.period ∧
    (∀ (e2 : DataEntry) (t2 u : Nat), 1 < s.w.batchSize → t2 < s.next → s.next ≤ u →
      (waitUntil sink (feedAt sink (feedAt sink s t (.recv e)) t2 (.recv e2)) u).w.calls
        = s.w.calls ++ [s.w.batch ++ [e], [e2]] ∧
      (waitUntil sink (feedAt sink (feedAt sink s t (.recv e)) t2 (.recv e2)) u).flushTimes
        = s.flushTimes ++ [t, s.next]) := by
  have e1 : feedAt sink s t (.recv e) = handleAt sink s t (.recv e) := by
    rw [feedAt, waitUntil_early sink s t hnext]
  obtain ⟨c1, b1, r1, z1, f1⟩ := handleAt_recv_full sink s t e hrun hfull
  rw [← e1] at c1 b1 r1 z1 f1
  have n1 : (feedAt sink s t (.recv e)).next = s.next := by rw [e1]; rfl
  have p1 : (feedAt sink s t (.recv e)).period = s.period := by rw [e1]; rfl
  refine ⟨c1, b1, f1, n1, p1, ?_⟩
  intro e2 t2 u hsize ht2 hu
  generalize feedAt sink s t (.recv e) = s1 at c1 b1 r1 z1 f1 n1 p1
  have hfeed : feedAt sink s1 t2 (.recv e2)
      = { s1 with w := { s1.w with batch := s1.w.batch ++ [e2] } } := by
    rw [feedAt, waitUntil_early sink s1 t2 (by omega),
      handleAt_recv_below sink s1 t2 e2 r1 (by rw [b1, z1]; simp only [List.length_nil]; omega)]
  obtain ⟨a, _, c⟩ := waitUntil_flush sink
    { s1 with w := { s1.w with batch := s1.w.batch ++ [e2] } } u r1 (by simp)
    (by show s1.next ≤ u; omega)
  rw [hfeed, a, c]
  dsimp only
  rw [c1, f1, b1, n1]
  simp

/-- Witness of C10 as amended: `batchSize = 2`, `flushInterval = 5s`, the writer
holds `[A]` at time 3s with the next tick due at 5s, and B arrives. -/
theorem size_flush_keeps_ticker_witness :
    (feedAt okSink holdingA (3 * second) (.recv recB)).next = 5 * second ∧
    (feedAt okSink holdingA (3 * second) (.recv recB)).flushTimes = [] ++ [3 * second] :=
  ⟨(size_flush_keeps_ticker okSink holdingA (3 * second) recB rfl
      (by decide) (by decide)).2.2.2.1,
   (size_flush_keeps_ticker okSink holdingA (3 * second) recB rfl
      (by decide) (by decide)).2.2.1⟩

/-- Counterexample to C10 as stated: with `batchSize = 2` and
`flushInterval = 5s`, a writer started at 0 receives A at 1s and B at 3s and
flushes `[A, B]` at 3s on size. The next tick is then still due at 5s, not at
3s + 5s = 8s: record C, which arrives at 4s, is flushed by the timer at 5s, two
seconds after the size-triggered flush. -/
theorem size_flush_timer_counterexample :
    ∃ s, startWriter maxSliceCap 2 flushInterval emptyDB 0 = some s ∧
      (feedAll okSink s [(1 * second, .recv recA), (3 * second, .recv recB)]).w.calls
        = [[recA, recB]] ∧
      (feedAll okSink s [(1 * second, .recv recA), (3 * second, .recv recB)]).flushTimes
        = [3 * second] ∧
      (feedAll okSink s [(1 * second, .recv recA), (3 * second, .recv recB)]).next
        = 5 * second ∧
      (feedAll okSink s [(1 * second, .recv recA), (3 * second, .recv recB)]).next
        ≠ 3 * second + flushInterval.toNat ∧
      (waitUntil okSink (feedAll okSink s [(1 * second, .recv recA), (3 * second, .recv recB),
          (4 * second, .recv recC)]) (6 * second)).w.calls = [[recA, recB], [recC]] ∧
      (waitUntil okSink (feedAll okSink s [(1 * second, .recv recA), (3 * second, .recv recB),
          (4 * second, .recv recC)]) (6 * second)).flushTimes = [3 * second, 5 * second] :=
  ⟨_, rfl, rfl, rfl, rfl, by decide, rfl, rfl⟩

/-! ## Channels, listener and converter -/

theorem trySend_handed {α : Type} (ch : Chan α) (x : α) (hopen : ch.closed = false)
    (hw : 0 < ch.waiting) : ch.trySend x = .handed { ch with waiting := ch.waiting - 1 } := by
  unfold Chan.trySend
  rw [if_neg (by simp [hopen]), if_pos hw]

theorem trySend_room {α : Type} (ch : Chan α) (x : α) (hopen : ch.closed = false)
    (hw : ch.waiting = 0) (h : ch.buf.length < ch.cap) :
    ch.trySend x = .sent { ch with buf := ch.buf ++ [x] } := by
  unfold Chan.trySend
  rw [if_neg (by simp [hopen]), if_neg (by omega), if_pos h]

theorem trySend_full {α : Type} (ch : Chan α) (x : α) (hopen : ch.closed = false)
    (hw : ch.waiting = 0) (h : ch.cap ≤ ch.buf.length) : ch.trySend x = .dropped ch := by
  unfold Chan.trySend
  rw [if_neg (by simp [hopen]), if_neg (by omega), if_neg (by omega)]

theorem trySend_closed {α : Type} (ch : Chan α) (x : α) (hclosed : ch.closed = true) :
    ch.trySend x = .panicked ch := by
  simp [Chan.trySend, hclosed]

theorem recv_nil {α : Type} (ch : Chan α) (h : ch.buf = []) :
    ch.recv = if ch.closed then .closedAndDrained
      else .parked { ch with waiting := ch.waiting + 1 } := by
  unfold Chan.recv
  rw [h]

theorem recv_cons {α : Type} (ch : Chan α) (y : α) (rest : List α) (h : ch.buf = y :: rest) :
    ch.recv = .item y { ch with buf := rest } := by
  unfold Chan.recv
  rw [h]

theorem qStep_running {α : Type} (q : QState α) (op : QOp α) (h : q.crashed = false) :
    qStep q op =
      match op with
      | .offer x =>
        match q.ch.trySend x with
        | .handed ch => { q with ch := ch, offered := q.offered ++ [x], taken := q.taken ++ [x] }
        | .sent ch => { q with ch := ch, offered := q.offered ++ [x] }
        | .dropped ch => { q with ch := ch, offered := q.offered ++ [x] }
        | .panicked ch => { q with ch := ch, offered := q.offered ++ [x], crashed := true }
      | .take =>
        if 0 < q.ch.waiting then q
        else
          match q.ch.recv with
          | .item x ch => { q with ch := ch, taken := q.taken ++ [x] }
          | .closedAndDrained => q
          | .parked ch => { q with ch := ch }
      | .close =>
        match q.ch.close with
        | some ch => { q with ch := ch }
        | none => { q with crashed := true } := by
  unfold qStep
  rw [if_neg (by simp [h])]

theorem qStep_inv {α : Type} (cap : Nat) (q : QState α) (op : QOp α) (h : QInv cap q) :
    QInv cap (qStep q op) := by
  obtain ⟨hsub, hcap, hlen, hwait⟩ := h
  by_cases hc : q.crashed = true
  · have : qStep q op = q := by simp [qStep, hc]
    rw [this]
    exact ⟨hsub, hcap, hlen, hwait⟩
  · rw [qStep_running q op (by simpa using hc)]
    cases op with
    | offer x =>
      dsimp only
      by_cases hclosed : q.ch.closed = true
      · rw [trySend_closed q.ch x hclosed]
        exact ⟨hsub.trans (List.sublist_append_left _ _), hcap, hlen, hwait⟩
      · by_cases hw : 0 < q.ch.waiting
        · rw [trySend_handed q.ch x (by simpa using hclosed) hw]
          have hbuf := hwait hw
          refine ⟨?_, hcap, hlen, fun _ => hbuf⟩
          show (q.taken ++ [x] ++ q.ch.buf).Sublist (q.offered ++ [x])
          have hsub2 : q.taken.Sublist q.offered := by
            have := hsub
            rw [hbuf, List.append_nil] at this
            exact this
          rw [hbuf, List.append_nil]
          exact List.Sublist.append hsub2 (List.Sublist.refl _)
        · have hw0 : q.ch.waiting = 0 := by omega
          by_cases hroom : q.ch.buf.length < q.ch.cap
          · rw [trySend_room q.ch x (by simpa using hclosed) hw0 hroom]
            refine ⟨?_, hcap, ?_, fun h0 => absurd h0 hw⟩
            · show (q.taken ++ (q.ch.buf ++ [x])).Sublist (q.offered ++ [x])
              rw [← List.append_assoc]
              exact List.Sublist.append hsub (List.Sublist.refl _)
            · show (q.ch.buf ++ [x]).length ≤ cap
              simp only [List.length_append, List.length_singleton]
              omega
          · rw [trySend_full q.ch x (by simpa using hclosed) hw0 (by omega)]
            exact ⟨hsub.trans (List.sublist_append_left _ _), hcap, hlen, hwait⟩
    | take =>
      dsimp only
      by_cases hw : 0 < q.ch.waiting
      · rw [if_pos hw]
        exact ⟨hsub, hcap, hlen, hwait⟩
      · rw [if_neg hw]
        cases hb : q.ch.buf with
        | nil =>
          rw [recv_nil q.ch hb]
          by_cases hclosed : q.ch.closed = true
          · rw [if_pos hclosed]
            exact ⟨hsub, hcap, hlen, hwait⟩
          · rw [if_neg hclosed]
            exact ⟨hsub, hcap, hlen, fun _ => hb⟩
        | cons y rest =>
          rw [recv_cons q.ch y rest hb]
          refine ⟨?_, hcap, ?_, fun h0 => absurd h0 hw⟩
          · show (q.taken ++ [y] ++ rest).Sublist q.offered
            rw [List.append_assoc, List.singleton_append, ← hb]
            exact hsub
          · show rest.length ≤ cap
            rw [hb] at hlen
            simp only [List.length_cons] at hlen
            omega
    | close =>
      dsimp only
      by_cases hclosed : q.ch.closed = true
      · have : q.ch.close = none := by simp [Chan.close, hclosed]
        rw [this]
        exact ⟨hsub, hcap, hlen, hwait⟩
      · have : q.ch.close = some { q.ch with closed := true, waiting := 0 } := by
          simp [Chan.close, hclosed]
        rw [this]
        exact ⟨hsub, hcap, hlen, fun h0 => absurd h0 (Nat.lt_irrefl 0)⟩

theorem qRun_inv {α : Type} (cap : Nat) (ops : List (QOp α)) :
    ∀ q : QState α, QInv cap q → QInv cap (qRun q ops) := by
  induction ops with
  | nil => intro q h; exact h
  | cons op rest ih => intro q h; exact ih _ (qStep_inv cap q op h)

/-- C7 (drop on full), as the code has it. On an open queue of capacity C the
non-blocking send hands the item to a receiver that is parked on the queue when
there is one; with no receiver parked it appends the item at the tail, behind the
items already queued, when fewer than C items are queued, and leaves the queue
unchanged and drops the item when C items are queued. The Listener with a
non-empty datagram and the Converter with a frame do exactly this and continue
with their next iteration in each case. Over any sequence of offers, receives and
closes on a fresh queue, what was received followed by what is queued is a
subsequence of what was offered, and the queue never holds more than C items. -/
theorem drop_on_full {α : Type} (ch : Chan α) (x : α) (hopen : ch.closed = false) :
    (0 < ch.waiting → ch.trySend x = .handed { ch with waiting := ch.waiting - 1 }) ∧
    (ch.waiting = 0 → ch.buf.length < ch.cap →
      ch.trySend x = .sent { ch with buf := ch.buf ++ [x] }) ∧
    (ch.waiting = 0 → ch.cap ≤ ch.buf.length → ch.trySend x = .dropped ch) ∧
    (∀ (l : Listener) (q : Chan (List Nat)) (payload : List Nat),
      l.done = false → q.closed = false → payload ≠ [] →
      (0 < q.waiting →
        listenIter l q (.datagram payload)
          = .continues (l, { q with waiting := q.waiting - 1 })) ∧
      (q.waiting = 0 → q.buf.length < q.cap →
        listenIter l q (.datagram payload)
          = .continues (l, { q with buf := q.buf ++ [payload.take bufferSize] })) ∧
      (q.waiting = 0 → q.cap ≤ q.buf.length →
        listenIter l q (.datagram payload)
          = .continues ({ l with log := l.log ++ [.channelFull] }, q))) ∧
    (∀ (c : Converter) (data : List Nat) (rest : List (List Nat)),
      c.rawDataChan.buf = data :: rest → c.dbDataChan.closed = false →
      (0 < c.dbDataChan.waiting →
        converterIter c = .continues
          { c with rawDataChan := { c.rawDataChan with buf := rest }
                   dbDataChan := { c.dbDataChan with waiting := c.dbDataChan.waiting - 1 } }) ∧
      (c.dbDataChan.waiting = 0 → c.dbDataChan.buf.length < c.dbDataChan.cap →
        converterIter c = .continues
          { c with rawDataChan := { c.rawDataChan with buf := rest }
                   dbDataChan := { c.dbDataChan with
                     buf := c.dbDataChan.buf ++ [{ SourceAddr := udpAddr, Data := data }] } }) ∧
      (c.dbDataChan.waiting = 0 → c.dbDataChan.cap ≤ c.dbDataChan.buf.length →
        converterIter c = .continues
          { c with rawDataChan := { c.rawDataChan with buf := rest }
                   droppedCount := c.droppedCount + 1 })) ∧
    (∀ (cap : Nat) (ops : List (QOp α)),
      ((qRun (qNew α cap) ops).taken ++ (qRun (qNew α cap) ops).ch.buf).Sublist
        (qRun (qNew α cap) ops).offered ∧
      (qRun (qNew α cap) ops).ch.buf.length ≤ cap) := by
  refine ⟨trySend_handed ch x hopen, trySend_room ch x hopen, trySend_full ch x hopen,
    ?_, ?_, ?_⟩
  · intro l q payload hdone hq hne
    have hpos : 0 < (payload.take bufferSize).length := by
      cases payload with
      | nil => exact absurd rfl hne
      | cons b rest => simp [bufferSize]
    refine ⟨fun hw => ?_, fun hw hroom => ?_, fun hw hfull => ?_⟩
    · simp only [listenIter, hdone, Bool.false_eq_true, if_false, hpos, if_true,
        trySend_handed q _ hq hw]
    · simp only [listenIter, hdone, Bool.false_eq_true, if_false, hpos, if_true,
        trySend_room q _ hq hw hroom]
    · simp only [listenIter, hdone, Bool.false_eq_true, if_false, hpos, if_true,
        trySend_full q _ hq hw hfull]
  · intro c data rest hbuf hq
    have hrecv := recv_cons c.rawDataChan data rest hbuf
    refine ⟨fun hw => ?_, fun hw hroom => ?_, fun hw hfull => ?_⟩
    · simp only [converterIter, hrecv, trySend_handed c.dbDataChan _ hq hw]
    · simp only [converterIter, hrecv, trySend_room c.dbDataChan _ hq hw hroom]
    · simp only [converterIter, hrecv, trySend_full c.dbDataChan _ hq hw hfull]
  · intro cap ops
    have h := qRun_inv cap ops (qNew α cap)
      ⟨by simp [qNew, Chan.make], rfl, by simp [qNew, Chan.make],
        fun _ => by simp [qNew, Chan.make]⟩
    exact ⟨h.1, h.2.2.1⟩

/-- Witness of C7 as amended: an open, full queue of capacity 2 with no receiver
parked drops the item offered; a run of offers and receives on a fresh queue of
capacity 2. -/
theorem drop_on_full_witness :
    fullChan.trySend [3] = .dropped fullChan ∧
    (qRun (qNew Nat 2) [.offer 1, .offer 2, .offer 3, .take, .offer 4]).ch.buf = [2, 4] ∧
    (qRun (qNew Nat 2) [.offer 1, .offer 2, .offer 3, .take, .offer 4]).taken = [1] ∧
    (qRun (qNew Nat 2) [.take, .offer 1, .offer 2]).taken = [1] ∧
    (qRun (qNew Nat 2) [.take, .offer 1, .offer 2]).ch.buf = [2] :=
  ⟨(drop_on_full fullChan [3] rfl).2.2.1 rfl (by decide), rfl, rfl, rfl, rfl⟩

/-- Counterexample to C7 as stated, which speaks of every queue. An unbuffered
queue (capacity 0) on which a receiver is parked holds C = 0 items, yet the item
offered is handed over, not dropped, and the listener continues without a drop.
A closed queue of capacity 2 that holds one item has room, yet the item is not
appended: the send panics. -/
theorem drop_on_full_counterexample :
    (unbufferedWithReceiver.buf.length = unbufferedWithReceiver.cap ∧
      unbufferedWithReceiver.trySend [9]
        = .handed { unbufferedWithReceiver with waiting := 0 } ∧
      listenIter startedListener unbufferedWithReceiver (.datagram [9])
        = .continues (startedListener, { unbufferedWithReceiver with waiting := 0 })) ∧
    (closedWithRoom.buf.length < closedWithRoom.cap ∧
      closedWithRoom.trySend [9] = .panicked closedWithRoom) :=
  ⟨⟨rfl, rfl, rfl⟩, ⟨by decide, rfl⟩⟩

theorem close_of_done (l : Listener) (h : l.done = true) :
    l.Close = .panicked { l with log := l.log ++ [.closing] } := by
  simp [Listener.Close, h]

/-- C8 (closing the listener), as the code has it. On a listener that was not
closed before, started or not, `Close` returns without a panic, leaves `done`
closed, and releases the socket exactly once when the listener holds an open
one. A second `Close` panics on closing `done` again, before it reaches the
socket: nothing is released a second time and the listener stays closed. -/
theorem close_once (l : Listener) (hopen : l.done = false) :
    ∃ err l1, l.Close = .returned err l1 ∧ l1.done = true ∧
      l1.released = l.released + (if l.connOpen = some true then 1 else 0) ∧
      l1.connOpen = l.connOpen.map (fun _ => false) ∧
      ∃ l2, l1.Close = .panicked l2 ∧ l2.done = true ∧ l2.released = l1.released ∧
        l2.connOpen = l1.connOpen := by
  cases hconn : l.connOpen with
  | none =>
    exact ⟨false, { l with log := l.log ++ [.closing], done := true },
      by simp [Listener.Close, hopen, hconn], rfl, by simp, by simp [hconn],
      _, close_of_done _ rfl, rfl, rfl, rfl⟩
  | some b =>
    cases b with
    | true =>
      exact ⟨false, { l with log := l.log ++ [.closing], done := true, connOpen := some false,
                             released := l.released + 1 },
        by simp [Listener.Close, hopen, hconn], rfl, by simp, by simp,
        _, close_of_done _ rfl, rfl, rfl, rfl⟩
    | false =>
      exact ⟨true, { l with log := l.log ++ [.closing], done := true },
        by simp [Listener.Close, hopen, hconn], rfl, by simp, by simp [hconn],
        _, close_of_done _ rfl, rfl, rfl, rfl⟩

/-- Witness of C8 as amended: the listener of the two programs after `Start`. -/
theorem close_once_witness :
    ∃ err l1, startedListener.Close = .returned err l1 ∧ l1.done = true ∧
      l1.released = startedListener.released
        + (if startedListener.connOpen = some true then 1 else 0) ∧
      l1.connOpen = startedListener.connOpen.map (fun _ => false) ∧
      ∃ l2, l1.Close = .panicked l2 ∧ l2.done = true ∧ l2.released = l1.released ∧
        l2.connOpen = l1.connOpen :=
  close_once startedListener rfl

/-- Counterexample to C8 as stated: a second `Close` panics, on the started
listener of the two programs as well as on a listener that was never started. -/
theorem close_twice_counterexample :
    (∃ l1 l2, startedListener.Close = .returned false l1 ∧ l1.Close = .panicked l2) ∧
    (∃ l1 l2, (NewListener udpAddr).Close = .returned false l1 ∧ l1.Close = .panicked l2) :=
  ⟨⟨_, _, rfl, rfl⟩, ⟨_, _, rfl, rfl⟩⟩

/-- C9 (late enqueue after close), evaluated on the code: the non-blocking send
on a closed channel panics. In `cmd/gateway` a datagram that arrives after
`close(dataChan)` makes the iteration of `listen` panic; in
`cmd/gateway_timescale` the converter panics on the frame that is still buffered
when both channels have been closed. -/
theorem late_enqueue_panics :
    (∀ (ch : Chan (List Nat)) (x : List Nat),
      ({ ch with closed := true } : Chan (List Nat)).trySend x
        = .panicked { ch with closed := true }) ∧
    (Chan.make (List Nat) 100).close = some closedDataChan ∧
    listenIter startedListener closedDataChan (.datagram [7, 7])
      = .panics (startedListener, closedDataChan) ∧
    converterIter convAfterShutdown
      = .panics { convAfterShutdown with
          rawDataChan := { convAfterShutdown.rawDataChan with buf := [] } } :=
  ⟨fun _ _ => rfl, rfl, rfl, rfl⟩

end EdgeGateway
